import Mathlib

/-!
Verification development for the cs121_A3 search engine (inverted-index
builder and query-time ranker).  The Python sources under `src/` are
shallowly embedded below: insertion-ordered Python dicts become
association lists, fallible code returns `Except`, and external
collaborators (the HTML parser, the lemmatizer, the spell checker, the
MD5-based fingerprint function, `math.log` / `math.sqrt`) are passed in
as explicit function parameters.  All numeric code uses `Nat` / `Int`
(Python integers are unbounded) and `Rat` in place of Python floats
where only exact comparisons matter.
-/

namespace A3

/-! ## Python dict primitives

Python `dict`s preserve insertion order: assignment to an existing key
updates the value in place, assignment to a fresh key appends.  They are
modelled as association lists. -/

/-- `d.get(k)` on an insertion-ordered dict: first entry whose key is `k`. -/
def alookup {κ α : Type} [DecidableEq κ] : List (κ × α) → κ → Option α
  | [], _ => none
  | (k', v') :: rest, k => if k' = k then some v' else alookup rest k

/-- `d[k] = v` on an insertion-ordered dict: update in place or append. -/
def aset {κ α : Type} [DecidableEq κ] : List (κ × α) → κ → α → List (κ × α)
  | [], k, v => [(k, v)]
  | (k', v') :: rest, k, v =>
    if k' = k then (k, v) :: rest else (k', v') :: aset rest k v

theorem alookup_aset_self {κ α : Type} [DecidableEq κ]
    (m : List (κ × α)) (k : κ) (v : α) : alookup (aset m k v) k = some v := by
  induction m with
  | nil => simp [aset, alookup]
  | cons p rest ih =>
    obtain ⟨k', v'⟩ := p
    by_cases h : k' = k <;> simp [aset, alookup, h, ih]

theorem alookup_aset_ne {κ α : Type} [DecidableEq κ]
    (m : List (κ × α)) (k k' : κ) (v : α) (h : k ≠ k') :
    alookup (aset m k v) k' = alookup m k' := by
  induction m with
  | nil => simp [aset, alookup, h]
  | cons p rest ih =>
    obtain ⟨k0, v0⟩ := p
    by_cases h0 : k0 = k
    · subst h0
      simp [aset, alookup, h]
    · simp only [aset, if_neg h0]
      by_cases h1 : k0 = k' <;> simp [alookup, h1, ih]

theorem aset_ne_nil {κ α : Type} [DecidableEq κ]
    (m : List (κ × α)) (k : κ) (v : α) : aset m k v ≠ [] := by
  cases m with
  | nil => simp [aset]
  | cons p rest =>
    obtain ⟨k0, v0⟩ := p
    by_cases h : k0 = k <;> simp [aset, h]

/-- Every value of `aset m k v` is `v` or a value of `m`. -/
theorem mem_values_aset {κ α : Type} [DecidableEq κ]
    (m : List (κ × α)) (k : κ) (v w : α) (hw : w ∈ (aset m k v).map (·.2)) :
    w = v ∨ w ∈ m.map (·.2) := by
  induction m with
  | nil => simpa [aset] using hw
  | cons p rest ih =>
    obtain ⟨k0, v0⟩ := p
    by_cases h : k0 = k
    · simp only [aset, if_pos h, List.map_cons, List.mem_cons] at hw
      rcases hw with h1 | h1
      · exact Or.inl h1
      · exact Or.inr (by simp [h1])
    · simp only [aset, if_neg h, List.map_cons, List.mem_cons] at hw
      rcases hw with h1 | h1
      · exact Or.inr (by simp [h1])
      · rcases ih h1 with h2 | h2
        · exact Or.inl h2
        · exact Or.inr (by simp [h2])

/-- Keys of `aset m k v` are `k` plus the keys of `m`. -/
theorem mem_keys_aset {κ α : Type} [DecidableEq κ]
    (m : List (κ × α)) (k k' : κ) (v : α) (h : k' ∈ (aset m k v).map (·.1)) :
    k' = k ∨ k' ∈ m.map (·.1) := by
  induction m with
  | nil => simpa [aset] using h
  | cons p rest ih =>
    obtain ⟨k0, v0⟩ := p
    by_cases h0 : k0 = k
    · simp only [aset, if_pos h0, List.map_cons, List.mem_cons] at h
      rcases h with h1 | h1
      · exact Or.inl h1
      · exact Or.inr (by simp [h1])
    · simp only [aset, if_neg h0, List.map_cons, List.mem_cons] at h
      rcases h with h1 | h1
      · exact Or.inr (by simp [h1])
      · rcases ih h1 with h2 | h2
        · exact Or.inl h2
        · exact Or.inr (by simp [h2])

theorem nodup_keys_aset {κ α : Type} [DecidableEq κ]
    (m : List (κ × α)) (k : κ) (v : α) (h : (m.map (·.1)).Nodup) :
    ((aset m k v).map (·.1)).Nodup := by
  induction m with
  | nil => simp [aset]
  | cons p rest ih =>
    obtain ⟨k0, v0⟩ := p
    simp only [List.map_cons, List.nodup_cons] at h
    by_cases h0 : k0 = k
    · subst h0
      simpa [aset] using h
    · simp only [aset, if_neg h0, List.map_cons, List.nodup_cons]
      refine ⟨?_, ih h.2⟩
      intro hmem
      have := mem_keys_aset rest k k0 v hmem
      rcases this with h1 | h1
      · exact h0 h1
      · exact h.1 (by simpa using h1)

/-! ## Tokenizer (`src/index/JSONtokenizer.py`)

`tokenize(string)` is
`(word.lower() for word in re.sub(r'[^a-zA-Z\d]', " ", string).split())`:
every character outside `[a-zA-Z0-9]` is replaced by a space, the result
is split on whitespace runs, and each word is lowercased.  (Python `\d`
also accepts non-ASCII Unicode digits; the corpus and all claims are
ASCII, so the character class is modelled as ASCII letters and digits.)
Note this `tokenize` (unlike the older copy in `src/JSONtokenizer.py`)
has no `len(word) > 1` filter. -/

/-- The character class `[a-zA-Z\d]` of `re.sub` in `tokenize`. -/
def wordChar (c : Char) : Bool :=
  ('a' ≤ c && c ≤ 'z') || ('A' ≤ c && c ≤ 'Z') || ('0' ≤ c && c ≤ '9')

/-- `re.sub(r'[^a-zA-Z\d]', " ", string)`. -/
def pySubNonAlnum (cs : List Char) : List Char :=
  cs.map (fun c => if wordChar c then c else ' ')

/-- Worker for `pySplitWS`; `cur` is the reversed current word. -/
def pySplitWSGo (cur : List Char) : List Char → List (List Char)
  | [] => if cur.isEmpty then [] else [cur.reverse]
  | c :: rest =>
    if c.isWhitespace then
      if cur.isEmpty then pySplitWSGo [] rest
      else cur.reverse :: pySplitWSGo [] rest
    else pySplitWSGo (c :: cur) rest

/-- Python `str.split()` with no argument: split on whitespace runs and
drop empty pieces. -/
def pySplitWS (cs : List Char) : List (List Char) :=
  pySplitWSGo [] cs

/-- Python `str.lower()` (ASCII case mapping suffices here). -/
def pyLower (cs : List Char) : List Char :=
  cs.map Char.toLower

/-- `JSONtokenizer.tokenize`. -/
def tokenize (s : String) : List String :=
  (pySplitWS (pySubNonAlnum s.data)).map (fun w => String.mk (pyLower w))

/-- `JSONtokenizer.compute_word_frequencies`. -/
def computeWordFrequencies (tokens : List String) : List (String × Nat) :=
  tokens.foldl (fun m t => aset m t ((alookup m t).getD 0 + 1)) []

/-- Invariant of the split worker: every emitted piece is nonempty,
whitespace-free, and drawn from the accumulator or the remaining input. -/
theorem pySplitWSGo_mem (cs : List Char) : ∀ (cur : List Char),
    (∀ c ∈ cur, c.isWhitespace = false) →
    ∀ w ∈ pySplitWSGo cur cs, w ≠ [] ∧ ∀ c ∈ w, c.isWhitespace = false ∧ (c ∈ cur ∨ c ∈ cs) := by
  induction cs with
  | nil =>
    intro cur hcur w hw
    by_cases hemp : cur.isEmpty
    · simp [pySplitWSGo, hemp] at hw
    · rw [pySplitWSGo, if_neg hemp] at hw
      have hw' : w = cur.reverse := by simpa using hw
      subst hw'
      refine ⟨?_, ?_⟩
      · simp only [ne_eq, List.reverse_eq_nil_iff]
        intro h
        rw [h] at hemp
        exact hemp rfl
      · intro c hc
        exact ⟨hcur c (List.mem_reverse.mp hc), Or.inl (List.mem_reverse.mp hc)⟩
  | cons c rest ih =>
    intro cur hcur w hw
    by_cases hws : c.isWhitespace
    · rw [pySplitWSGo, if_pos hws] at hw
      by_cases hemp : cur.isEmpty
      · rw [if_pos hemp] at hw
        have := ih [] (by simp) w hw
        refine ⟨this.1, fun d hd => ⟨(this.2 d hd).1, ?_⟩⟩
        rcases (this.2 d hd).2 with h1 | h1
        · simp at h1
        · exact Or.inr (List.mem_cons_of_mem c h1)
      · rw [if_neg hemp] at hw
        rcases List.mem_cons.mp hw with h1 | h1
        · subst h1
          refine ⟨?_, ?_⟩
          · simp only [ne_eq, List.reverse_eq_nil_iff]
            intro h
            rw [h] at hemp
            exact hemp rfl
          · intro d hd
            exact ⟨hcur d (List.mem_reverse.mp hd), Or.inl (List.mem_reverse.mp hd)⟩
        · have := ih [] (by simp) w h1
          refine ⟨this.1, fun d hd => ⟨(this.2 d hd).1, ?_⟩⟩
          rcases (this.2 d hd).2 with h2 | h2
          · simp at h2
          · exact Or.inr (List.mem_cons_of_mem c h2)
    · rw [pySplitWSGo, if_neg hws] at hw
      have hcur2 : ∀ d ∈ c :: cur, d.isWhitespace = false := by
        intro d hd
        rcases List.mem_cons.mp hd with h1 | h1
        · subst h1
          simpa using hws
        · exact hcur d h1
      have := ih (c :: cur) hcur2 w hw
      refine ⟨this.1, fun d hd => ⟨(this.2 d hd).1, ?_⟩⟩
      rcases (this.2 d hd).2 with h1 | h1
      · rcases List.mem_cons.mp h1 with h2 | h2
        · subst h2
          exact Or.inr (List.mem_cons_self _ _)
        · exact Or.inl h2
      · exact Or.inr (List.mem_cons_of_mem c h1)

/-- Pieces of `pySplitWS` are nonempty, whitespace-free, and drawn from
the input. -/
theorem pySplitWS_mem (cs : List Char) (w : List Char) (hw : w ∈ pySplitWS cs) :
    w ≠ [] ∧ ∀ c ∈ w, c.isWhitespace = false ∧ c ∈ cs := by
  have := pySplitWSGo_mem cs [] (by simp) w hw
  refine ⟨this.1, fun c hc => ⟨(this.2 c hc).1, ?_⟩⟩
  rcases (this.2 c hc).2 with h1 | h1
  · simp at h1
  · exact h1

/-- Lowercase-alphanumeric characters (`[a-z0-9]`). -/
def lowerWordChar (c : Char) : Bool :=
  ('a' ≤ c && c ≤ 'z') || ('0' ≤ c && c ≤ '9')

theorem char_le_iff_toNat {a b : Char} : a ≤ b ↔ a.toNat ≤ b.toNat := by
  rw [Char.le_def, UInt32.le_def, BitVec.le_def]
  exact Iff.rfl

theorem char_toNat_ofNat_valid {n : Nat} (h : n < 55296) : (Char.ofNat n).toNat = n := by
  simp only [Char.ofNat]
  rw [dif_pos (Or.inl h)]
  rfl

theorem lowerWordChar_toLower (c : Char) (h : wordChar c = true) :
    lowerWordChar c.toLower = true := by
  simp only [wordChar, Bool.or_eq_true, Bool.and_eq_true, decide_eq_true_eq] at h
  simp only [lowerWordChar, Bool.or_eq_true, Bool.and_eq_true, decide_eq_true_eq]
  rcases h with (h | h) | h
  · have h1 : 97 ≤ c.toNat := char_le_iff_toNat.mp h.1
    have h2 : c.toNat ≤ 122 := char_le_iff_toNat.mp h.2
    have hlow : c.toLower = c := by
      simp only [Char.toLower]
      rw [if_neg (by omega)]
    rw [hlow]
    exact Or.inl ⟨h.1, h.2⟩
  · have h1 : 65 ≤ c.toNat := char_le_iff_toNat.mp h.1
    have h2 : c.toNat ≤ 90 := char_le_iff_toNat.mp h.2
    have hlow : c.toLower = Char.ofNat (c.toNat + 32) := by
      simp only [Char.toLower]
      rw [if_pos (And.intro h1 h2)]
    rw [hlow]
    have hof : (Char.ofNat (c.toNat + 32)).toNat = c.toNat + 32 :=
      char_toNat_ofNat_valid (by omega)
    have ha : ('a' : Char).toNat = 97 := rfl
    have hz : ('z' : Char).toNat = 122 := rfl
    left
    constructor
    · rw [char_le_iff_toNat, hof, ha]
      omega
    · rw [char_le_iff_toNat, hof, hz]
      omega
  · have h1 : 48 ≤ c.toNat := char_le_iff_toNat.mp h.1
    have h2 : c.toNat ≤ 57 := char_le_iff_toNat.mp h.2
    have hlow : c.toLower = c := by
      simp only [Char.toLower]
      rw [if_neg (by omega)]
    rw [hlow]
    exact Or.inr ⟨h.1, h.2⟩

/-! ## Tag-aware tokenization (`tokenize_JSON_file_with_tags`)

BeautifulSoup parsing is the external boundary: a parsed document is
given by its path, the total visible text `soup.get_text(' ')`, and the
list of `(tag name, " ".join(_ignore_nested_tags(soup_tag)))` pairs in
`find_all` order.  The lemmatizer `Word(token).lemmatize()` is external
(TextBlob) and is passed in as a function `lem`. -/

/-- A document as seen after the BeautifulSoup boundary. -/
structure ParsedDoc where
  path : String
  totalText : String
  tagTexts : List (String × String)
  deriving Repr

/-- `_WEIGHTED_TAGS` from `src/index/inverted_index.py`. -/
def weightedTags : List String := ["h1", "h2", "h3", "title", "b", "strong"]

/-- `dict_tags = explicit_tags + ["other"]`. -/
def dictTags (explicitTags : List String) : List String := explicitTags ++ ["other"]

/-- `dict.fromkeys(keys, 0)`. -/
def fromKeys (keys : List String) (v : Int) : List (String × Int) :=
  keys.map (fun k => (k, v))

/-- `sum(d.values())`. -/
def sumValues (m : List (String × Int)) : Int :=
  (m.map (·.2)).sum

/-- The per-tag accumulation loop of `tokenize_JSON_file_with_tags`
(the `# explicit tags:` section).  `tf` maps a token to its per-tag
frequency dict. -/
def tagPhase (lem : String → String) (explicitTags : List String)
    (tagTexts : List (String × String)) : List (String × List (String × Int)) :=
  explicitTags.foldl (fun tf tag =>
    (tagTexts.filter (fun p => p.1 = tag)).foldl (fun tf p =>
      (computeWordFrequencies ((tokenize p.2).map lem)).foldl (fun tf tokf =>
        let fd := (alookup tf tokf.1).getD (fromKeys (dictTags explicitTags) 0)
        let fd2 := aset fd tag ((alookup fd tag).getD 0 + (tokf.2 : Int))
        aset tf tokf.1 fd2) tf) tf) []

/-- Python `tag_frequencies.get(token) or dict.fromkeys(dict_tags, 0)`:
a missing key or an empty dict both fall back to the fresh zero dict. -/
def pyOrFrom (explicitTags : List String) :
    Option (List (String × Int)) → List (String × Int)
  | none => fromKeys (dictTags explicitTags) 0
  | some d => if d.isEmpty then fromKeys (dictTags explicitTags) 0 else d

/-- The data-integrity error raised by `tokenize_JSON_file_with_tags`:
`Exception(f'Negative other score: ..path.., ..token.., ..frequencies..')`.
Its message names the document path, the offending token, and the
frequency dict; the exception is modelled structurally. -/
structure NegOtherErr where
  path : String
  token : String
  freqs : List (String × Int)
  deriving Repr, DecidableEq

/-- The `# miscellaneous` loop of `tokenize_JSON_file_with_tags`:
iterate over `total_frequencies`, compute the residual `other` count,
store it, and raise on a negative residual. -/
def miscLoop (explicitTags : List String) (path : String) :
    List (String × Nat) → List (String × List (String × Int)) →
    Except NegOtherErr (List (String × List (String × Int)))
  | [], tf => .ok tf
  | p :: rest, tf =>
    let freqs := pyOrFrom explicitTags (alookup tf p.1)
    let other := (p.2 : Int) - sumValues freqs
    let freqs2 := aset freqs "other" other
    if other < 0 then .error ⟨path, p.1, freqs2⟩
    else miscLoop explicitTags path rest (aset tf p.1 freqs2)

/-- `tokenize_JSON_file_with_tags(path, explicit_tags)` on a parsed
document.  (On an unparseable document the Python function returns an
empty dict before reaching any of this; that branch is behind the
BeautifulSoup boundary and is not modelled.) -/
def tokenizeWithTags (lem : String → String) (explicitTags : List String)
    (doc : ParsedDoc) : Except NegOtherErr (List (String × List (String × Int))) :=
  miscLoop explicitTags doc.path
    (computeWordFrequencies ((tokenize doc.totalText).map lem))
    (tagPhase lem explicitTags doc.tagTexts)

/-- `total_frequencies` of a document. -/
def docTotals (lem : String → String) (doc : ParsedDoc) : List (String × Nat) :=
  computeWordFrequencies ((tokenize doc.totalText).map lem)

/-- The residual `other = total_frequency - Σ(weighted tag frequencies)`
of a token, as in step 5 of the spec: the token's total count minus the
sum of its per-tag counts accumulated by the explicit-tag phase. -/
def residualOf (lem : String → String) (explicitTags : List String)
    (doc : ParsedDoc) (t : String) : Int :=
  ((alookup (docTotals lem doc) t).getD 0 : Int) -
    sumValues (pyOrFrom explicitTags (alookup (tagPhase lem explicitTags doc.tagTexts) t))

/-! ## Postings and token entries (`posting.proto`, `_add_page`)

The protobuf messages are `TokenEntry { uint64 df = 1; repeated Posting
postings = 2; }` and `Posting { uint64 doc_id = 1; uint64 frequency = 2;
map<string, uint64> tag_frequencies = 3; }` (the `.proto` file is
generated at import time; its message shapes are as documented in the
spec, §4.7). -/

structure Posting where
  doc_id : Int
  frequency : Int
  tag_frequencies : List (String × Int)
  deriving Repr, DecidableEq

structure TokenEntry where
  df : Nat
  postings : List Posting
  deriving Repr, DecidableEq

/-- The `TokenEntry()` default of `defaultdict(TokenEntry)`. -/
def TokenEntry.empty : TokenEntry := { df := 0, postings := [] }

/-- The postings constructed by `InvertedIndex._add_page` from one
document's tokenizer output: for each `(token, tag_freqs)` item a
`Posting(doc_id=doc_id, frequency=sum(tag_freqs.values()),
tag_frequencies=tag_freqs)` is appended. -/
def addPagePostings (docId : Int) (m : List (String × List (String × Int))) :
    List (String × Posting) :=
  m.map (fun p =>
    (p.1, { doc_id := docId, frequency := sumValues p.2, tag_frequencies := p.2 }))

/-! ## Support lemmas for the tokenizer theorems -/

/-- `foldl` preserves a predicate that every step preserves. -/
theorem foldl_preserve {α β : Type} (P : α → Prop) (l : List β) (f : α → β → α) (a : α)
    (ha : P a) (hf : ∀ x ∈ l, ∀ acc, P acc → P (f acc x)) : P (l.foldl f a) := by
  induction l generalizing a with
  | nil => simpa using ha
  | cons b bs ih =>
    exact ih (f a b) (hf b (List.mem_cons_self _ _) a ha)
      (fun x hx acc hacc => hf x (List.mem_cons_of_mem _ hx) acc hacc)

/-- Lookup hits are values of the map. -/
theorem alookup_mem_values {κ α : Type} [DecidableEq κ]
    (m : List (κ × α)) (k : κ) (v : α) (h : alookup m k = some v) :
    v ∈ m.map (·.2) := by
  induction m with
  | nil => simp [alookup] at h
  | cons q rest ih =>
    obtain ⟨k0, v0⟩ := q
    by_cases hk : k0 = k
    · subst hk
      rw [alookup, if_pos rfl] at h
      injection h with h
      subst h
      simp
    · rw [alookup, if_neg hk] at h
      simp [ih h]

/-- Keys of a `compute_word_frequencies` result are distinct. -/
theorem computeWordFrequencies_nodup_keys (ts : List String) :
    ((computeWordFrequencies ts).map (·.1)).Nodup := by
  unfold computeWordFrequencies
  exact foldl_preserve (fun (m : List (String × Nat)) => (m.map (·.1)).Nodup) ts
    (fun m t => aset m t ((alookup m t).getD 0 + 1)) [] (by simp)
    (fun t _ m hm => nodup_keys_aset m t _ hm)

/-- With distinct keys, membership determines the lookup. -/
theorem alookup_eq_of_mem_nodup {κ α : Type} [DecidableEq κ]
    (m : List (κ × α)) (p : κ × α) (hmem : p ∈ m) (hnd : (m.map (·.1)).Nodup) :
    alookup m p.1 = some p.2 := by
  induction m with
  | nil => simp at hmem
  | cons q rest ih =>
    obtain ⟨k0, v0⟩ := q
    simp only [List.map_cons, List.nodup_cons] at hnd
    rcases List.mem_cons.mp hmem with h1 | h1
    · subst h1
      simp [alookup]
    · have hne : k0 ≠ p.1 := by
        intro hcontra
        exact hnd.1 (by
          subst hcontra
          exact List.mem_map.mpr ⟨p, h1, rfl⟩)
      simp only [alookup, if_neg hne]
      exact ih h1 hnd.2

/-- Every tag dict produced by the explicit-tag phase keeps `other = 0`
(assuming `"other"` is not itself a weighted tag). -/
theorem tagPhase_other_zero (lem : String → String) (explicitTags : List String)
    (hother : "other" ∉ explicitTags) (tagTexts : List (String × String)) :
    ∀ v ∈ (tagPhase lem explicitTags tagTexts).map (·.2), alookup v "other" = some 0 := by
  unfold tagPhase
  have hfrom : alookup (fromKeys (dictTags explicitTags) 0) "other" = some 0 := by
    unfold dictTags fromKeys
    induction explicitTags with
    | nil => simp [alookup]
    | cons t ts ih =>
      simp only [List.mem_cons, not_or] at hother
      simp only [List.cons_append, List.map_cons, alookup, if_neg (Ne.symm hother.1)]
      exact ih hother.2
  refine foldl_preserve
    (fun (tf : List (String × List (String × Int))) =>
      ∀ v ∈ tf.map (·.2), alookup v "other" = some 0)
    explicitTags _ [] (by simp) ?_
  intro tag htag tf htf
  refine foldl_preserve
    (fun (tf : List (String × List (String × Int))) =>
      ∀ v ∈ tf.map (·.2), alookup v "other" = some 0)
    _ _ tf htf ?_
  intro p _ tf2 htf2
  refine foldl_preserve
    (fun (tf : List (String × List (String × Int))) =>
      ∀ v ∈ tf.map (·.2), alookup v "other" = some 0)
    _ _ tf2 htf2 ?_
  intro tokf _ tf3 htf3
  intro v hv
  rcases mem_values_aset tf3 tokf.1 _ v hv with h1 | h1
  · subst h1
    have htagne : tag ≠ "other" := fun hcontra => hother (hcontra ▸ htag)
    rw [alookup_aset_ne _ _ _ _ htagne]
    rcases h2 : alookup tf3 tokf.1 with _ | fd
    · simp [hfrom]
    · simp only [Option.getD_some]
      exact htf3 fd (alookup_mem_values tf3 tokf.1 fd h2)
  · exact htf3 v h1

/-- On success, every tag dict coming out of the miscellaneous loop
carries a non-negative `other` entry. -/
theorem miscLoop_ok_other (explicitTags : List String) (path : String) :
    ∀ (rem : List (String × Nat)) (tf m : List (String × List (String × Int))),
    (∀ v ∈ tf.map (·.2), ∃ x, alookup v "other" = some x ∧ 0 ≤ x) →
    miscLoop explicitTags path rem tf = .ok m →
    ∀ v ∈ m.map (·.2), ∃ x, alookup v "other" = some x ∧ 0 ≤ x := by
  intro rem
  induction rem with
  | nil =>
    intro tf m htf hok
    simp only [miscLoop, Except.ok.injEq] at hok
    subst hok
    exact htf
  | cons p rest ih =>
    intro tf m htf hok
    simp only [miscLoop] at hok
    by_cases hneg : (p.2 : Int) - sumValues (pyOrFrom explicitTags (alookup tf p.1)) < 0
    · rw [if_pos hneg] at hok
      exact absurd hok (by simp)
    · rw [if_neg hneg] at hok
      refine ih _ m ?_ hok
      intro v hv
      rcases mem_values_aset tf p.1 _ v hv with h1 | h1
      · subst h1
        exact ⟨_, alookup_aset_self _ _ _, by omega⟩
      · exact htf v h1

/-- Behaviour of the miscellaneous loop: it succeeds iff every remaining
token's residual is non-negative, and a raised error names the document
path and an offending token. -/
theorem miscLoop_spec (explicitTags : List String) (path : String)
    (tf0 : List (String × List (String × Int))) :
    ∀ (rem : List (String × Nat)) (tf : List (String × List (String × Int))),
    (∀ p ∈ rem, alookup tf p.1 = alookup tf0 p.1) →
    ((rem.map (·.1)).Nodup) →
    ( ((∀ p ∈ rem, 0 ≤ (p.2 : Int) - sumValues (pyOrFrom explicitTags (alookup tf0 p.1))) →
        ∃ m, miscLoop explicitTags path rem tf = .ok m)
    ∧ (∀ e, miscLoop explicitTags path rem tf = .error e →
        e.path = path ∧ ∃ p ∈ rem, p.1 = e.token ∧
          (p.2 : Int) - sumValues (pyOrFrom explicitTags (alookup tf0 p.1)) < 0)
    ∧ ((∃ p ∈ rem, (p.2 : Int) - sumValues (pyOrFrom explicitTags (alookup tf0 p.1)) < 0) →
        ∃ e, miscLoop explicitTags path rem tf = .error e) ) := by
  intro rem
  induction rem with
  | nil =>
    intro tf _ _
    refine ⟨fun _ => ⟨tf, rfl⟩, ?_, ?_⟩
    · intro e he
      simp [miscLoop] at he
    · intro h
      simp at h
  | cons p rest ih =>
    intro tf hlk hnd
    have hlkp : alookup tf p.1 = alookup tf0 p.1 := hlk p (List.mem_cons_self _ _)
    simp only [List.map_cons, List.nodup_cons] at hnd
    by_cases hneg : (p.2 : Int) - sumValues (pyOrFrom explicitTags (alookup tf0 p.1)) < 0
    · have hstep : miscLoop explicitTags path (p :: rest) tf =
          .error ⟨path, p.1, aset (pyOrFrom explicitTags (alookup tf0 p.1)) "other"
            ((p.2 : Int) - sumValues (pyOrFrom explicitTags (alookup tf0 p.1)))⟩ := by
        simp only [miscLoop, hlkp]
        rw [if_pos hneg]
      refine ⟨?_, ?_, ?_⟩
      · intro hall
        exact absurd (hall p (List.mem_cons_self _ _)) (by omega)
      · intro e he
        rw [hstep] at he
        injection he with he
        subst he
        exact ⟨rfl, p, List.mem_cons_self _ _, rfl, hneg⟩
      · intro _
        exact ⟨_, hstep⟩
    · have hstep : miscLoop explicitTags path (p :: rest) tf =
          miscLoop explicitTags path rest (aset tf p.1
            (aset (pyOrFrom explicitTags (alookup tf0 p.1)) "other"
              ((p.2 : Int) - sumValues (pyOrFrom explicitTags (alookup tf0 p.1))))) := by
        simp only [miscLoop, hlkp]
        rw [if_neg hneg]
      have hlk2 : ∀ q ∈ rest, alookup (aset tf p.1
          (aset (pyOrFrom explicitTags (alookup tf0 p.1)) "other"
            ((p.2 : Int) - sumValues (pyOrFrom explicitTags (alookup tf0 p.1))))) q.1 =
          alookup tf0 q.1 := by
        intro q hq
        have hne : p.1 ≠ q.1 := by
          intro hcontra
          exact hnd.1 (List.mem_map.mpr ⟨q, hq, hcontra.symm⟩)
        rw [alookup_aset_ne _ _ _ _ hne]
        exact hlk q (List.mem_cons_of_mem _ hq)
      obtain ⟨ihok, iherr, ihex⟩ := ih _ hlk2 hnd.2
      refine ⟨?_, ?_, ?_⟩
      · intro hall
        rw [hstep]
        exact ihok (fun q hq => hall q (List.mem_cons_of_mem _ hq))
      · intro e he
        rw [hstep] at he
        obtain ⟨hp, q, hq, hqe⟩ := iherr e he
        exact ⟨hp, q, List.mem_cons_of_mem _ hq, hqe⟩
      · intro hex
        rw [hstep]
        rcases hex with ⟨q, hq, hqneg⟩
        rcases List.mem_cons.mp hq with h1 | h1
        · subst h1
          exact absurd hqneg hneg
        · exact ihex ⟨q, h1, hqneg⟩

/-- With distinct keys, the residual written in `residualOf` agrees with
the loop-local residual of an entry of `total_frequencies`. -/
theorem residualOf_eq (lem : String → String) (explicitTags : List String)
    (doc : ParsedDoc) (p : String × Nat) (hp : p ∈ docTotals lem doc) :
    residualOf lem explicitTags doc p.1 =
      (p.2 : Int) - sumValues (pyOrFrom explicitTags
        (alookup (tagPhase lem explicitTags doc.tagTexts) p.1)) := by
  unfold residualOf
  rw [alookup_eq_of_mem_nodup _ p hp (computeWordFrequencies_nodup_keys _)]
  rfl

/-- **C8.**  Tag-aware tokenization of a document fails with a
data-integrity error naming the document and an offending token exactly
when some token of the document has a negative residual
`other = total_frequency - Σ(weighted tag frequencies)`; with no
negative residual it returns the frequency map without error. -/
theorem tokenizeWithTags_negative_residual (lem : String → String) (doc : ParsedDoc) :
    ((∀ t ∈ (docTotals lem doc).map (·.1), 0 ≤ residualOf lem weightedTags doc t) →
      ∃ m, tokenizeWithTags lem weightedTags doc = .ok m) ∧
    (∀ e, tokenizeWithTags lem weightedTags doc = .error e →
      e.path = doc.path ∧ e.token ∈ (docTotals lem doc).map (·.1) ∧
        residualOf lem weightedTags doc e.token < 0) ∧
    ((∃ t ∈ (docTotals lem doc).map (·.1), residualOf lem weightedTags doc t < 0) →
      ∃ e, tokenizeWithTags lem weightedTags doc = .error e) := by
  obtain ⟨hok, herr, hex⟩ := miscLoop_spec weightedTags doc.path
    (tagPhase lem weightedTags doc.tagTexts) (docTotals lem doc)
    (tagPhase lem weightedTags doc.tagTexts) (fun _ _ => rfl)
    (computeWordFrequencies_nodup_keys _)
  refine ⟨?_, ?_, ?_⟩
  · intro hall
    refine hok ?_
    intro p hp
    have := hall p.1 (List.mem_map.mpr ⟨p, hp, rfl⟩)
    rwa [residualOf_eq lem weightedTags doc p hp] at this
  · intro e he
    obtain ⟨hp, q, hq, hq1, hq2⟩ := herr e he
    refine ⟨hp, List.mem_map.mpr ⟨q, hq, hq1⟩, ?_⟩
    rw [← hq1, residualOf_eq lem weightedTags doc q hq]
    exact hq2
  · intro hext
    obtain ⟨t, ht, htneg⟩ := hext
    obtain ⟨q, hq, hq1⟩ := List.mem_map.mp ht
    refine hex ⟨q, hq, ?_⟩
    rw [← residualOf_eq lem weightedTags doc q hq, hq1]
    exact htneg

/-- Witness for C8: a document whose only token has residual `-1`
(`"x"` appears once in the text but twice inside `<b>` direct text)
raises the error, and a plain document tokenizes successfully. -/
theorem tokenizeWithTags_negative_residual_witness :
    (∃ m, tokenizeWithTags id weightedTags
      { path := "g.json", totalText := "hello", tagTexts := [] } = .ok m) ∧
    (∃ e, tokenizeWithTags id weightedTags
      { path := "d.json", totalText := "x", tagTexts := [("b", "x x")] } = .error e) :=
  ⟨(tokenizeWithTags_negative_residual id
      { path := "g.json", totalText := "hello", tagTexts := [] }).1 (by decide),
   (tokenizeWithTags_negative_residual id
      { path := "d.json", totalText := "x", tagTexts := [("b", "x x")] }).2.2 (by decide)⟩

/-- **C7.**  Every posting built by `_add_page` from a successful
tag-aware tokenization satisfies
`frequency == sum(tag_frequencies.values())`, and its `"other"` entry
exists and is non-negative. -/
theorem posting_frequency_decomposition (lem : String → String) (doc : ParsedDoc)
    (docId : Int) (m : List (String × List (String × Int)))
    (hok : tokenizeWithTags lem weightedTags doc = .ok m)
    (t : String) (post : Posting) (hmem : (t, post) ∈ addPagePostings docId m) :
    post.frequency = sumValues post.tag_frequencies ∧
      ∃ x, alookup post.tag_frequencies "other" = some x ∧ 0 ≤ x := by
  obtain ⟨p, hp, heq⟩ := List.mem_map.mp hmem
  have hpost : post = { doc_id := docId, frequency := sumValues p.2, tag_frequencies := p.2 } := by
    have := congrArg Prod.snd heq
    simpa using this.symm
  subst hpost
  refine ⟨rfl, ?_⟩
  have hother : ("other" : String) ∉ weightedTags := by decide
  have hinit := tagPhase_other_zero lem weightedTags hother doc.tagTexts
  have hvals := miscLoop_ok_other weightedTags doc.path (docTotals lem doc)
    (tagPhase lem weightedTags doc.tagTexts) m
    (fun v hv => ⟨0, hinit v hv, le_refl 0⟩) hok
  exact hvals p.2 (List.mem_map.mpr ⟨p, hp, rfl⟩)

/-- Witness for C7 at a concrete one-token document. -/
theorem posting_frequency_decomposition_witness :
    (({ doc_id := 1, frequency := 1, tag_frequencies :=
        [("h1", 0), ("h2", 0), ("h3", 0), ("title", 0), ("b", 0), ("strong", 0),
          ("other", 1)] } : Posting).frequency =
      sumValues [("h1", 0), ("h2", 0), ("h3", 0), ("title", 0), ("b", 0), ("strong", 0),
          ("other", 1)]) ∧
      ∃ x, alookup [(("h1" : String), (0 : Int)), ("h2", 0), ("h3", 0), ("title", 0), ("b", 0),
          ("strong", 0), ("other", 1)] "other" = some x ∧ 0 ≤ x :=
  posting_frequency_decomposition id
    { path := "g.json", totalText := "hello", tagTexts := [] } 1
    [("hello", [("h1", 0), ("h2", 0), ("h3", 0), ("title", 0), ("b", 0), ("strong", 0),
      ("other", 1)])]
    rfl "hello" _ (by decide)

/-! ## C4: the token length filter -/

/-- Counterexample for C4 as stated: `tokenize` keeps length-1 tokens
(`src/index/JSONtokenizer.py` line 27 has no `len(word) > 1` filter, unlike
the older copy in `src/JSONtokenizer.py`), so a length-1 token appears in
the output and in the word-frequency map. -/
theorem tokenize_keeps_length_one_tokens :
    tokenize "a b" = ["a", "b"] ∧ ("a" : String).length = 1 ∧
      computeWordFrequencies (tokenize "a b") = [("a", 1), ("b", 1)] := by
  decide

/-- **C4 (amended).**  Tokenization lowercases and splits on runs of
non-alphanumeric characters: every produced token is a nonempty string
of lowercase-alphanumeric characters.  Tokens of length 1 are *not*
dropped. -/
theorem tokenize_tokens_lower_alnum (s t : String) (ht : t ∈ tokenize s) :
    1 ≤ t.length ∧ ∀ c ∈ t.data, lowerWordChar c = true := by
  obtain ⟨w, hw, hteq⟩ := List.mem_map.mp ht
  obtain ⟨hne, hchars⟩ := pySplitWS_mem _ w hw
  subst hteq
  constructor
  · show 1 ≤ (pyLower w).length
    unfold pyLower
    rw [List.length_map]
    cases w with
    | nil => exact absurd rfl hne
    | cons c rest => simp
  · intro c hc
    obtain ⟨c', hc', hceq⟩ := List.mem_map.mp hc
    subst hceq
    obtain ⟨hws, hmem⟩ := hchars c' hc'
    obtain ⟨x, _, hxeq⟩ := List.mem_map.mp hmem
    by_cases hwc : wordChar x
    · rw [if_pos hwc] at hxeq
      subst hxeq
      exact lowerWordChar_toLower x hwc
    · rw [if_neg hwc] at hxeq
      subst hxeq
      simp [Char.isWhitespace] at hws

/-- Witness for the amended C4 at the length-1 token `"a"`. -/
theorem tokenize_tokens_lower_alnum_witness :
    ("a" ∈ tokenize "a b") ∧
      (1 ≤ ("a" : String).length ∧ ∀ c ∈ ("a" : String).data, lowerWordChar c = true) :=
  ⟨by decide, tokenize_tokens_lower_alnum "a b" "a" (by decide)⟩

/-! ## PathMapper (`src/index/path_mapper.py`)

`PathMapper.__init__` sets `root_path`, `_mapper_disk_path`,
`path_to_id` and `url_to_id` (and `_load` only reassigns the last two).
The class body defines the methods `__init__`, `construct_mapping`,
`get_id`, `get_id_by_url`, `get_url_by_id`, `_save` and `_load` — and
nothing else: in particular no `id_to_path` attribute and no
`get_path_by_id` method, although `src/app.py` line 88 calls
`searcher.path_mapper.get_path_by_id(doc_id)` and
`src/retrieval/searcher.py` line 46 iterates
`self.path_mapper.id_to_path.items()`. -/

structure PathMapperState where
  path_to_id : List (String × Int)
  url_to_id : List (String × Int)
  deriving Repr, DecidableEq

/-- `PathMapper.get_id`: `self.path_to_id.get(file_path, -1)`. -/
def PathMapperState.get_id (m : PathMapperState) (p : String) : Int :=
  (alookup m.path_to_id p).getD (-1)

/-- `PathMapper.get_id_by_url`: `self.url_to_id.get(url, -1)`. -/
def PathMapperState.get_id_by_url (m : PathMapperState) (u : String) : Int :=
  (alookup m.url_to_id u).getD (-1)

/-- `PathMapper.get_url_by_id`:
`next((url for url, id in self.url_to_id.items() if id == doc_id), "")`. -/
def PathMapperState.get_url_by_id (m : PathMapperState) (docId : Int) : String :=
  ((m.url_to_id.find? (fun q => q.2 = docId)).map (·.1)).getD ""

/-- The Python attribute names resolvable on a `PathMapper` object:
instance attributes assigned in `__init__` plus the methods of the class
body of `src/index/path_mapper.py`. -/
def pathMapperAttrs : List String :=
  ["root_path", "_mapper_disk_path", "path_to_id", "url_to_id",
   "construct_mapping", "get_id", "get_id_by_url", "get_url_by_id", "_save", "_load"]

/-- **C6.**  The three lookup operations that `PathMapper` does define
return their sentinel values on missing keys; the fourth operation of
the claim, `get_path_by_id`, is not an attribute of `PathMapper` at all
(its call in `src/app.py` raises `AttributeError`). -/
theorem path_mapper_lookup_operations (m : PathMapperState) (docId : Int) (p u : String)
    (hp : alookup m.path_to_id p = none) (hu : alookup m.url_to_id u = none)
    (hid : ∀ q ∈ m.url_to_id, q.2 ≠ docId) :
    m.get_id p = -1 ∧ m.get_id_by_url u = -1 ∧ m.get_url_by_id docId = "" ∧
      "get_path_by_id" ∉ pathMapperAttrs := by
  refine ⟨?_, ?_, ?_, by decide⟩
  · simp [PathMapperState.get_id, hp]
  · simp [PathMapperState.get_id_by_url, hu]
  · have : m.url_to_id.find? (fun q => q.2 = docId) = none := by
      rw [List.find?_eq_none]
      intro q hq
      simpa using hid q hq
    simp [PathMapperState.get_url_by_id, this]

/-- Witness for C6 at a concrete mapper with no entry for the probed
path, URL or id. -/
theorem path_mapper_lookup_operations_witness :
    PathMapperState.get_id { path_to_id := [("a.json", 1)], url_to_id := [("u", 1)] } "nope" = -1 ∧
    PathMapperState.get_id_by_url { path_to_id := [("a.json", 1)], url_to_id := [("u", 1)] } "nope" = -1 ∧
    PathMapperState.get_url_by_id { path_to_id := [("a.json", 1)], url_to_id := [("u", 1)] } 5 = "" ∧
    "get_path_by_id" ∉ pathMapperAttrs :=
  path_mapper_lookup_operations
    { path_to_id := [("a.json", 1)], url_to_id := [("u", 1)] } 5 "nope" "nope"
    (by decide) (by decide) (by decide)

/-! ## C5: the document-vector build in `Searcher.__init__` -/

inductive VecBuildErr
  | attributeError (attr : String)
  deriving Repr, DecidableEq

/-- The document-vector loop of `Searcher.__init__`
(`for doc_id, path in self.path_mapper.id_to_path.items(): ...`,
`src/retrieval/searcher.py` lines 46-48).  Python first resolves the
attribute `id_to_path` on the mapper object; `PathMapper` defines no
such attribute, so the lookup raises `AttributeError` before any
document vector is computed (the loop body is unreachable). -/
def buildDocumentVectors (m : PathMapperState) :
    Except VecBuildErr (List (Int × List (String × Nat))) :=
  if "id_to_path" ∈ pathMapperAttrs then
    .ok []
  else .error (.attributeError "id_to_path")

/-- **C5.**  The document-vector build of `Searcher.__init__` raises
`AttributeError: id_to_path` for every mapper — it never produces any
vector, contradicting the claim that it succeeds for every corpus. -/
theorem document_vector_build_raises (m : PathMapperState) :
    buildDocumentVectors m = .error (.attributeError "id_to_path") := by
  rfl

/-- Witness for C5 at a concrete one-document mapper. -/
theorem document_vector_build_raises_witness :
    buildDocumentVectors { path_to_id := [("p1.json", 1)], url_to_id := [("u1", 1)] } =
      .error (.attributeError "id_to_path") :=
  document_vector_build_raises _

/-! ## Near-duplicate filter (`src/index/simhash.py`, `_is_similar`)

Fingerprints are byte strings, modelled as `List Nat` of byte values.
The fingerprint function itself (MD5-based `simhash`) is external input
to the build model (`sfn`); the duplicate-filter verdicts below hold for
every fingerprint function because `InvertedIndex` never inserts
anything into `self._simhashes`. -/

/-- Bits set in one byte, as counted by `bin(a ^ b).count('1')`. -/
def popcount8 (n : Nat) : Nat :=
  ((List.range 8).filter (fun i => n.testBit i)).length

inductive SimErr
  | valueError
  | zeroDivisionError
  deriving Repr, DecidableEq

/-- `simhash.distance`: Hamming distance of two equal-length byte
strings; unequal lengths raise `ValueError`. -/
def simDistance (h1 h2 : List Nat) : Except SimErr Nat :=
  if h1.length ≠ h2.length then .error .valueError
  else .ok (((h1.zip h2).map (fun p => popcount8 (Nat.xor p.1 p.2))).sum)

/-- `simhash.calculate_similarity_score`: `1 - distance/(len(hash1)*8)`. -/
def similarityScore (h1 h2 : List Nat) : Except SimErr Rat := do
  let d ← simDistance h1 h2
  if h1.length * 8 = 0 then .error .zeroDivisionError
  else .ok (1 - (d : Rat) / ((h1.length * 8 : Nat) : Rat))

/-- `_SIMILARITY_THRESHOLD = 0.95`. -/
def simThreshold : Rat := 95 / 100

/-- The scan loop of `InvertedIndex._is_similar`. -/
def isSimilarScan (h : List Nat) : List (List Nat) → Except SimErr Bool
  | [] => .ok false
  | h2 :: rest => do
    let s ← similarityScore h h2
    if simThreshold ≤ s then .ok true else isSimilarScan h rest

/-- `InvertedIndex._is_similar`: membership first, then the similarity
scan over all stored fingerprints. -/
def isSimilar (simhashes : List (List Nat)) (h : List Nat) : Except SimErr Bool :=
  if simhashes.contains h then .ok true else isSimilarScan h simhashes

/-! ## The build loop (`InvertedIndex.build` / `_add_page` / `flush`) -/

/-- A corpus document: its path, raw HTML (input of the fingerprint
function) and its parsed form (the BeautifulSoup boundary). -/
structure Page where
  path : String
  html : String
  totalText : String
  tagTexts : List (String × String)
  deriving Repr

/-- Lexicographic code-point comparison on character lists (Python's
`str` comparison). -/
def charListLt : List Char → List Char → Bool
  | [], [] => false
  | [], _ :: _ => true
  | _ :: _, [] => false
  | a :: as, b :: bs =>
    if a.toNat < b.toNat then true
    else if b.toNat < a.toNat then false
    else charListLt as bs

/-- Python `a < b` on strings. -/
def pyStrLt (a b : String) : Bool := charListLt a.data b.data

/-- Python `a <= b` on strings. -/
def pyStrLe (a b : String) : Bool := pyStrLt a b || a == b

/-- Insert into a key-sorted association list. -/
def insertByKey {α : Type} (x : String × α) : List (String × α) → List (String × α)
  | [] => [x]
  | y :: ys => if pyStrLe x.1 y.1 then x :: y :: ys else y :: insertByKey x ys

/-- `sorted(data.items())` for a dict with distinct keys. -/
def sortByKey {α : Type} (l : List (String × α)) : List (String × α) :=
  l.foldr insertByKey []

/-- In-memory build state of an `InvertedIndex` under construction:
the stored fingerprints, the token buffer `_buf`, `_postings_count`,
`_page_count` and the contents of the flushed run files
`partition_<N>.bin` in creation order. -/
structure BuildState where
  simhashes : List (List Nat)
  buf : List (String × TokenEntry)
  postingsCount : Nat
  pageCount : Nat
  runs : List (List (String × TokenEntry))
  deriving Repr, DecidableEq

/-- One iteration of the posting loop in `_add_page`: append the
posting, bump `df` and `_postings_count`, and flush
(`flush()` writes `sorted(self._buf.items())` to a fresh run and the
buffer is cleared) once `_postings_count >= postings_flush_count`. -/
def addPageStep (flushCount : Nat) (st : BuildState) (item : String × Posting) : BuildState :=
  let cur := (alookup st.buf item.1).getD TokenEntry.empty
  let cur2 : TokenEntry := { df := cur.df + 1, postings := cur.postings ++ [item.2] }
  let st2 := { st with
    buf := aset st.buf item.1 cur2
    postingsCount := st.postingsCount + 1 }
  if flushCount ≤ st2.postingsCount then
    { st2 with postingsCount := 0, runs := st2.runs ++ [sortByKey st2.buf], buf := [] }
  else st2

/-- `InvertedIndex._add_page`. -/
def addPage (lem : String → String) (flushCount : Nat) (mapper : PathMapperState)
    (st : BuildState) (page : Page) : Except NegOtherErr BuildState := do
  let st2 := { st with pageCount := st.pageCount + 1 }
  let docId := mapper.get_id page.path
  let m ← tokenizeWithTags lem weightedTags
    { path := page.path, totalText := page.totalText, tagTexts := page.tagTexts }
  .ok ((addPagePostings docId m).foldl (addPageStep flushCount) st2)

inductive BuildErr
  | sim (e : SimErr)
  | tok (e : NegOtherErr)
  deriving Repr, DecidableEq

/-- One iteration of `InvertedIndex.build`: skip the page if
`_is_similar` says so, otherwise `_add_page` it. -/
def buildStep (lem : String → String) (sfn : String → List Nat) (flushCount : Nat)
    (mapper : PathMapperState) (st : BuildState) (page : Page) :
    Except BuildErr BuildState := do
  let s ← (isSimilar st.simhashes (sfn page.html)).mapError BuildErr.sim
  if s then .ok st
  else (addPage lem flushCount mapper st page).mapError BuildErr.tok

/-- `InvertedIndex.build` over a corpus, starting from the fresh state
of `__init__` (`self._simhashes = set()`, empty buffer and counters). -/
def buildPages (lem : String → String) (sfn : String → List Nat) (flushCount : Nat)
    (mapper : PathMapperState) (pages : List Page) : Except BuildErr BuildState :=
  pages.foldlM (buildStep lem sfn flushCount mapper)
    { simhashes := [], buf := [], postingsCount := 0, pageCount := 0, runs := [] }

/-- `addPageStep` never touches the fingerprint set. -/
theorem addPageStep_simhashes (flushCount : Nat) (st : BuildState)
    (item : String × Posting) :
    (addPageStep flushCount st item).simhashes = st.simhashes := by
  unfold addPageStep
  by_cases h : flushCount ≤ st.postingsCount + 1 <;> simp [h]

/-- `buildStep` never touches the fingerprint set: no branch of
`build` / `_add_page` / `_is_similar` ever inserts into
`self._simhashes`. -/
theorem buildStep_simhashes (lem : String → String) (sfn : String → List Nat)
    (flushCount : Nat) (mapper : PathMapperState) (st st2 : BuildState) (page : Page)
    (h : buildStep lem sfn flushCount mapper st page = .ok st2) :
    st2.simhashes = st.simhashes := by
  unfold buildStep at h
  rcases hsim : isSimilar st.simhashes (sfn page.html) with e | b
  · rw [hsim] at h
    simp [Except.mapError, bind, Except.bind] at h
  · rw [hsim] at h
    simp only [Except.mapError, Except.bind, bind] at h
    cases b with
    | true =>
      simp only [if_pos rfl] at h
      injection h with h
      rw [← h]
    | false =>
      simp only [Bool.false_eq_true, if_false] at h
      unfold addPage at h
      rcases htok : tokenizeWithTags lem weightedTags
          { path := page.path, totalText := page.totalText, tagTexts := page.tagTexts } with
        e | m
      · rw [htok] at h
        simp [Except.bind, bind] at h
      · rw [htok] at h
        simp only [Except.mapError, Except.bind, bind, Except.ok.injEq] at h
        rw [← h]
        refine foldl_preserve (fun (s : BuildState) => s.simhashes = st.simhashes)
          _ _ _ rfl ?_
        intro item _ s hs
        rw [addPageStep_simhashes, hs]

/-- After any successful build the fingerprint set is still the empty
set it started as: the duplicate filter can never have anything to
compare against. -/
theorem buildPages_simhashes_empty (lem : String → String) (sfn : String → List Nat)
    (flushCount : Nat) (mapper : PathMapperState) (pages : List Page) (st : BuildState)
    (h : buildPages lem sfn flushCount mapper pages = .ok st) :
    st.simhashes = [] := by
  unfold buildPages at h
  suffices H : ∀ (ps : List Page) (s0 s1 : BuildState),
      List.foldlM (buildStep lem sfn flushCount mapper) s0 ps = .ok s1 →
      s1.simhashes = s0.simhashes by
    exact H pages _ st h
  intro ps
  induction ps with
  | nil =>
    intro s0 s1 h1
    simp only [List.foldlM, pure, Except.pure, Except.ok.injEq] at h1
    rw [← h1]
  | cons p rest ih =>
    intro s0 s1 h1
    simp only [List.foldlM, bind, Except.bind] at h1
    rcases hstep : buildStep lem sfn flushCount mapper s0 p with e | s2
    · rw [hstep] at h1
      simp at h1
    · rw [hstep] at h1
      rw [ih s2 s1 h1, buildStep_simhashes lem sfn flushCount mapper s0 s2 p hstep]

/-- **C2.**  With near-duplicate filtering on, a corpus of two
byte-identical HTML documents still indexes *both* documents: nothing is
ever inserted into `self._simhashes`, so `_is_similar` scans an empty
set and never rejects.  Both pages are counted and the shared token ends
up with two postings (`df = 2`) in the buffer, contradicting the claim
that only one of them contributes postings. -/
theorem duplicate_filter_never_rejects :
    buildPages id (fun _ => [0]) 50000
      { path_to_id := [("p1.json", 1), ("p2.json", 2)], url_to_id := [] }
      [ { path := "p1.json", html := "<p>hello</p>", totalText := "hello", tagTexts := [] },
        { path := "p2.json", html := "<p>hello</p>", totalText := "hello", tagTexts := [] } ] =
    .ok { simhashes := [],
          buf := [("hello", { df := 2, postings :=
            [ { doc_id := 1, frequency := 1, tag_frequencies :=
                [("h1", 0), ("h2", 0), ("h3", 0), ("title", 0), ("b", 0), ("strong", 0),
                  ("other", 1)] },
              { doc_id := 2, frequency := 1, tag_frequencies :=
                [("h1", 0), ("h2", 0), ("h3", 0), ("title", 0), ("b", 0), ("strong", 0),
                  ("other", 1)] } ] })],
          postingsCount := 2, pageCount := 2, runs := [] } := by
  rfl

/-! ## K-way merge (`InvertedIndex._merge`)

The heap holds `(token, stream_index, entry)` tuples, so pops are
ordered by token and then by stream index (two heap items never share a
stream index, so the tuple comparison never reaches the entries). -/

/-- Combining two entries for one token, per `inverted_index.py` lines
282-283: `batch[-1][1].df += token_entry.df` followed by
`batch[-1][1].MergeFrom(token_entry)`.  Protobuf `MergeFrom` semantics:
singular scalar fields that are set (non-zero in proto3) in the source
overwrite the destination field — so a non-zero `b.df` overwrites the
sum just computed — and repeated fields are appended. -/
def mergeEntries (a b : TokenEntry) : TokenEntry :=
  { df := if b.df = 0 then a.df + b.df else b.df,
    postings := a.postings ++ b.postings }

/-- The combined effect of `df += other.df; MergeFrom(other)` for any
pair of entries: whenever the incoming entry has a non-zero `df` (which
every run entry does), the sum is overwritten and the merged `df` is
just `b.df`, while the postings are concatenated. -/
theorem mergeEntries_df_overwritten (a b : TokenEntry) (h : 0 < b.df) :
    (mergeEntries a b).df = b.df ∧
      (mergeEntries a b).postings = a.postings ++ b.postings := by
  unfold mergeEntries
  have hne : ¬ b.df = 0 := by omega
  simp [hne]

/-- Heap order on `(token, stream_index, entry)`. -/
def pqLt (a b : String × Nat × TokenEntry) : Bool :=
  pyStrLt a.1 b.1 || (a.1 == b.1 && a.2.1 < b.2.1)

/-- Insert keeping the queue sorted (models `heapq.heappush` pop order). -/
def pqInsert (x : String × Nat × TokenEntry) :
    List (String × Nat × TokenEntry) → List (String × Nat × TokenEntry)
  | [] => [x]
  | y :: ys => if pqLt x y then x :: y :: ys else y :: pqInsert x ys

/-- `batch[-1][1] = merge(batch[-1][1], e)` in place. -/
def updateLast (batch : List (String × TokenEntry)) (e : TokenEntry) :
    List (String × TokenEntry) :=
  match batch with
  | [] => []
  | [x] => [(x.1, mergeEntries x.2 e)]
  | x :: xs => x :: updateLast xs e

/-- The merge loop.  One iteration pops the least `(token, idx, entry)`,
merges it into the batch tail or appends it, pushes the next entry of
stream `idx`, and drains the batch to the output (all entries except
those still carrying the open `last_token`, written in sorted order)
once the batch size reaches `postings_flush_count`.  When the queue is
empty the residual batch is flushed.  The fuel argument only bounds the
iteration count; `mergeRuns` supplies enough for every input. -/
def mergeLoop (flushCount : Nat) : Nat → List (List (String × TokenEntry)) →
    List (String × Nat × TokenEntry) → Option String →
    List (String × TokenEntry) → List (String × TokenEntry) →
    Option (List (String × TokenEntry))
  | 0, _, _, _, _, _ => none
  | _ + 1, _, [], _, batch, out =>
    some (if batch.isEmpty then out else out ++ sortByKey batch)
  | fuel + 1, streams, (token, idx, entry) :: pqRest, lastToken, batch, out =>
    let batch2 := if lastToken = some token then updateLast batch entry
      else batch ++ [(token, entry)]
    let next := streams.getD idx []
    let pq2 := match next with
      | [] => pqRest
      | e :: _ => pqInsert (e.1, idx, e.2) pqRest
    let streams2 := match next with
      | [] => streams
      | _ :: rest => streams.set idx rest
    if flushCount ≤ batch2.length then
      let d := batch2.filter (fun q => q.1 != token)
      let nb := batch2.filter (fun q => q.1 == token)
      let out2 := if d.isEmpty then out else out ++ sortByKey d
      mergeLoop flushCount fuel streams2 pq2 (some token) nb out2
    else
      mergeLoop flushCount fuel streams2 pq2 (some token) batch2 out

/-- `InvertedIndex._merge` on the contents of the sorted run files:
seed the heap with the first entry of each run, then loop. -/
def mergeRuns (flushCount : Nat) (runs : List (List (String × TokenEntry))) :
    Option (List (String × TokenEntry)) :=
  let pq0 := runs.enum.foldl (fun pq p =>
    match p.2 with
    | [] => pq
    | e :: _ => pqInsert (e.1, p.1, e.2) pq) []
  let streams0 := runs.map (fun r => r.drop 1)
  mergeLoop flushCount ((runs.map List.length).sum + 1) streams0 pq0 none [] []

/-- **C1.**  Merging two runs that both hold token `"apple"` with
`df = 1` and one posting produces a merged entry with *two* postings but
`df = 1`: the `df += token_entry.df` sum is overwritten by the scalar
field copy of `MergeFrom`, so `df` is not additively combined and
`df == len(postings)` fails after the merge. -/
theorem merge_overwrites_df :
    mergeRuns 50000
      [ [("apple", { df := 1, postings :=
          [{ doc_id := 1, frequency := 2, tag_frequencies := [("other", 2)] }] })],
        [("apple", { df := 1, postings :=
          [{ doc_id := 2, frequency := 1, tag_frequencies := [("other", 1)] }] })] ] =
      some [("apple", { df := 1, postings :=
        [{ doc_id := 1, frequency := 2, tag_frequencies := [("other", 2)] },
         { doc_id := 2, frequency := 1, tag_frequencies := [("other", 1)] }] })] ∧
    ¬ ((1 : Nat) =
      [({ doc_id := 1, frequency := 2, tag_frequencies := [("other", 2)] } : Posting),
       { doc_id := 2, frequency := 1, tag_frequencies := [("other", 1)] }].length) := by
  decide

/-! ## Partition routing (`_token_ranges`, `_get_partition_file`,
`__getitem__`) -/

/-- A partition file on disk: its path and its `(token, entry)` records. -/
structure Disk where
  path : String
  entries : List (String × TokenEntry)
  deriving Repr, DecidableEq

/-- Worker for Python `str.split(sep)` with a single-character
separator (splits at every occurrence, keeping empty pieces). -/
def splitCharGo (sep : Char) : List Char → List Char → List (List Char)
  | cur, [] => [cur.reverse]
  | cur, c :: rest =>
    if c = sep then cur.reverse :: splitCharGo sep [] rest
    else splitCharGo sep (c :: cur) rest

/-- Python `s.split('_')`-style splitting on one separator character. -/
def pySplitChar (sep : Char) (s : String) : List String :=
  (splitCharGo sep [] s.data).map String.mk

/-- `self._token_ranges = [str(path).split('_')[-1] for path in self.disks]`
(`inverted_index.py` line 135). -/
def tokenRanges (disks : List Disk) : List String :=
  disks.map (fun d => (pySplitChar '_' d.path).getLastD "")

/-- `bisect.bisect_left` with fuel (the fuel only bounds the halving
steps; `bisectLeft` supplies more than enough). -/
def bisectLeftGo (a : List String) (x : String) : Nat → Nat → Nat → Nat
  | 0, lo, _ => lo
  | fuel + 1, lo, hi =>
    if lo < hi then
      let mid := (lo + hi) / 2
      if pyStrLt (a.getD mid "") x then bisectLeftGo a x fuel (mid + 1) hi
      else bisectLeftGo a x fuel lo mid
    else lo

/-- `bisect.bisect_left(a, x)`. -/
def bisectLeft (a : List String) (x : String) : Nat :=
  bisectLeftGo a x (a.length + 1) 0 a.length

/-- `InvertedIndex._get_partition_file`:
`index = bisect.bisect_left(self._token_ranges, token)` and
`return self.disks[index - 1] if index else self.disks[0]`. -/
def getPartitionFile (disks : List Disk) (token : String) : Disk :=
  let idx := bisectLeft (tokenRanges disks) token
  if idx = 0 then disks.getD 0 { path := "", entries := [] }
  else disks.getD (idx - 1) { path := "", entries := [] }

/-- `InvertedIndex.__getitem__`: linear scan of the selected partition,
returning `TokenEntry()` when the token is not found there. -/
def indexGetEntry (disks : List Disk) (token : String) : TokenEntry :=
  match (getPartitionFile disks token).entries.find? (fun p => p.1 == token) with
  | some p => p.2
  | none => TokenEntry.empty

/-- A two-partition index as `_partition` lays it out: files named
`partition_<min_token>.bin`, each holding its token range. -/
def routingExample : List Disk :=
  [ { path := "/data/indexes/idx/partition_apple.bin", entries :=
      [("apple", { df := 1, postings :=
        [{ doc_id := 1, frequency := 1, tag_frequencies := [("other", 1)] }] })] },
    { path := "/data/indexes/idx/partition_banana.bin", entries :=
      [("banana", { df := 1, postings :=
        [{ doc_id := 2, frequency := 1, tag_frequencies := [("other", 1)] }] })] } ]

/-- **C3.**  Routing misses tokens that are the minimum token of any
partition after the first: the routing keys keep the `.bin` suffix
(`"apple.bin"`, `"banana.bin"`), and `bisect_left` sends the present
token `"banana"` to the *first* partition (`partition_apple.bin`), whose
scan then returns the empty `TokenEntry()` even though `"banana"` is in
the index. -/
theorem routing_misses_partition_min_token :
    tokenRanges routingExample = ["apple.bin", "banana.bin"] ∧
    "banana" ∈ ((routingExample.getD 1 { path := "", entries := [] }).entries.map (·.1)) ∧
    (getPartitionFile routingExample "banana").path =
      "/data/indexes/idx/partition_apple.bin" ∧
    indexGetEntry routingExample "banana" = TokenEntry.empty := by
  decide

/-! ## Range partitioner (`InvertedIndex._partition`)

The merged file is streamed entry by entry.  The inner `while` fills
`self._buf` while `_postings_count < partition_posting_size`; the
`finally` clause runs on every exit from the `try` — including the
`break` raised by `StopIteration` — and computes
`sorted(self._buf.keys())[0]`, which raises `IndexError` on an empty
buffer. -/

inductive PartErr
  | indexError
  deriving Repr, DecidableEq

/-- The inner fill loop: returns the buffer, the unread remainder, the
posting counter, and whether `_next_entry` raised `StopIteration`. -/
def partFill (size : Nat) : List (String × TokenEntry) → List (String × TokenEntry) → Nat →
    List (String × TokenEntry) × List (String × TokenEntry) × Nat × Bool
  | [], buf, count =>
    if count < size then (buf, [], count, true) else (buf, [], count, false)
  | e :: rest, buf, count =>
    if count < size then partFill size rest (aset buf e.1 e.2) (count + e.2.postings.length)
    else (buf, e :: rest, count, false)

/-- The outer `while True` of `_partition`, with fuel bounding the
number of partitions written (`partitionRun` supplies enough fuel for
every input; running out yields `none`). -/
def partLoopGo (size : Nat) : Nat → List (String × TokenEntry) →
    List (List (String × TokenEntry)) →
    Option (Except PartErr (List (List (String × TokenEntry))))
  | 0, _, _ => none
  | fuel + 1, rem, parts =>
    match partFill size rem [] 0 with
    | (buf, rest, _, eof) =>
      if buf.isEmpty then some (.error .indexError)
      else if eof then some (.ok (parts ++ [sortByKey buf]))
      else partLoopGo size fuel rest (parts ++ [sortByKey buf])

/-- `InvertedIndex._partition` on the merged file contents.  Each
written partition is the sorted buffer (`_flush_idx_data` writes
`sorted(data.items())`), whose first key is the `min_token` in the
partition file name. -/
def partitionRun (size : Nat) (entries : List (String × TokenEntry)) :
    Option (Except PartErr (List (List (String × TokenEntry)))) :=
  partLoopGo size (entries.length + 1) entries []

/-- Counterexample for C10 as stated: a merged file with 4 postings and
`partition_posting_size = 2` — an exact multiple — where the first entry
alone overshoots the threshold.  Partitioning completes normally with
two partitions, so "any merged index whose total posting count is an
exact multiple" is too strong. -/
theorem partition_completes_on_multiple_total :
    (partitionRun 2
      [ ("a", { df := 3, postings :=
          [ { doc_id := 1, frequency := 1, tag_frequencies := [("other", 1)] },
            { doc_id := 2, frequency := 1, tag_frequencies := [("other", 1)] },
            { doc_id := 3, frequency := 1, tag_frequencies := [("other", 1)] } ] }),
        ("b", { df := 1, postings :=
          [ { doc_id := 1, frequency := 1, tag_frequencies := [("other", 1)] } ] }) ] =
      some (.ok
        [ [ ("a", { df := 3, postings :=
            [ { doc_id := 1, frequency := 1, tag_frequencies := [("other", 1)] },
              { doc_id := 2, frequency := 1, tag_frequencies := [("other", 1)] },
              { doc_id := 3, frequency := 1, tag_frequencies := [("other", 1)] } ] }) ],
          [ ("b", { df := 1, postings :=
            [ { doc_id := 1, frequency := 1, tag_frequencies := [("other", 1)] } ] }) ] ])) ∧
    (3 + 1) % 2 = 0 :=
  ⟨rfl, rfl⟩

/-- On a unit-posting stream with at least `size - c` entries left
(`0 ≤ c < size`), the fill loop consumes exactly `size - c` entries and
exits with `eof = false` and a nonempty buffer. -/
theorem partFill_units (size : Nat) :
    ∀ (rem buf : List (String × TokenEntry)) (c : Nat),
    (∀ e ∈ rem, e.2.postings.length = 1) → c < size → size - c ≤ rem.length →
    ∃ buf2, partFill size rem buf c = (buf2, rem.drop (size - c), size, false) ∧
      buf2 ≠ [] := by
  intro rem
  induction rem with
  | nil =>
    intro buf c _ hc hlen
    simp only [List.length_nil, Nat.le_zero] at hlen
    omega
  | cons e rest ih =>
    intro buf c hunit hc hlen
    rw [partFill, if_pos hc]
    have he : e.2.postings.length = 1 := hunit e (List.mem_cons_self _ _)
    rw [he]
    by_cases hc2 : c + 1 < size
    · have hlen2 : size - (c + 1) ≤ rest.length := by
        simp only [List.length_cons] at hlen
        omega
      obtain ⟨buf2, heq, hne⟩ := ih (aset buf e.1 e.2) (c + 1)
        (fun f hf => hunit f (List.mem_cons_of_mem _ hf)) hc2 hlen2
      refine ⟨buf2, ?_, hne⟩
      rw [heq]
      have : (e :: rest).drop (size - c) = rest.drop (size - (c + 1)) := by
        have h1 : size - c = (size - (c + 1)) + 1 := by omega
        rw [h1]
        rfl
      rw [this]
    · have hsz : size = c + 1 := by omega
      subst hsz
      refine ⟨aset buf e.1 e.2, ?_, aset_ne_nil _ _ _⟩
      have hdrop : (e :: rest).drop (c + 1 - c) = rest := by
        have : c + 1 - c = 1 := by omega
        rw [this]
        rfl
      rw [hdrop]
      cases rest with
      | nil =>
        rw [partFill, if_neg (by omega)]
      | cons f fs =>
        rw [partFill, if_neg (by omega)]

/-- Strong-induction core for the amended C10. -/
theorem partLoopGo_units_crash : ∀ (n : Nat) (size : Nat)
    (entries : List (String × TokenEntry)) (parts : List (List (String × TokenEntry)))
    (fuel : Nat), entries.length = n →
    (∀ e ∈ entries, e.2.postings.length = 1) → size ∣ n → n < fuel →
    partLoopGo size fuel entries parts = some (.error .indexError) := by
  intro n
  induction n using Nat.strong_induction_on with
  | _ n ih =>
    intro size entries parts fuel hlen hunit hdvd hfuel
    cases fuel with
    | zero => omega
    | succ fuel =>
      by_cases hzero : n = 0
      · subst hzero
        have : entries = [] := List.length_eq_zero.mp hlen
        subst this
        by_cases hsz : 0 < size
        · rw [partLoopGo]
          rw [partFill, if_pos hsz]
          rfl
        · rw [partLoopGo]
          rw [partFill, if_neg hsz]
          rfl
      · have hszpos : 0 < size := by
          rcases Nat.eq_zero_or_pos size with h | h
          · subst h
            rw [Nat.zero_dvd] at hdvd
            omega
          · exact h
        have hsle : size ≤ n := Nat.le_of_dvd (by omega) hdvd
        obtain ⟨buf2, hfill, hne⟩ := partFill_units size entries [] 0 hunit hszpos
          (by omega)
        have hbuf : buf2.isEmpty = false := by
          cases buf2 with
          | nil => exact absurd rfl hne
          | cons x xs => rfl
        rw [partLoopGo]
        simp only [hfill, hbuf, Bool.false_eq_true, if_false]
        refine ih (n - size) (by omega) size _ _ fuel ?_ ?_ ?_ (by omega)
        · rw [List.length_drop, hlen, Nat.sub_zero]
        · intro e he
          exact hunit e (List.mem_of_mem_drop he)
        · exact Nat.dvd_sub' hdvd (dvd_refl size)

/-- **C10 (amended).**  Whenever the fill boundaries align with the end
of the merged stream — in particular for a merged file whose entries
each hold exactly one posting and whose total posting count is an exact
multiple of `partition_posting_size` (including the zero-entry file) —
`_partition` reaches the write path with an empty buffer and
`sorted(self._buf.keys())[0]` raises an unhandled `IndexError`. -/
theorem partition_crashes_on_aligned_runs (size : Nat)
    (entries : List (String × TokenEntry))
    (hunit : ∀ e ∈ entries, e.2.postings.length = 1)
    (hdvd : size ∣ entries.length) :
    partitionRun size entries = some (.error .indexError) :=
  partLoopGo_units_crash entries.length size entries [] (entries.length + 1)
    rfl hunit hdvd (by omega)

/-- Witness for the amended C10: two unit entries with
`partition_posting_size = 2`. -/
theorem partition_crashes_on_aligned_runs_witness :
    partitionRun 2
      [ ("a", { df := 1, postings :=
          [{ doc_id := 1, frequency := 1, tag_frequencies := [("other", 1)] }] }),
        ("b", { df := 1, postings :=
          [{ doc_id := 2, frequency := 1, tag_frequencies := [("other", 1)] }] }) ] =
      some (.error .indexError) :=
  partition_crashes_on_aligned_runs 2 _ (by decide) (by decide)

/-! ## Searcher (`src/retrieval/searcher.py`)

`math.log`, `math.sqrt`, the pyspellchecker `correction` and the
TextBlob lemmatizer are external; they enter as function parameters.
Python `set`s are modelled as duplicate-free lists in first-insertion
order (their iteration order is unspecified in Python; no claim below
depends on it).  Scores are `Rat` in place of Python floats; only the
zero/non-zero distinction of the empty-query path matters here. -/

/-- `HTML_TAGS_WEIGHTS`. -/
def htmlTagsWeights : List (String × Rat) :=
  [("h1", 20/100), ("h2", 15/100), ("h3", 10/100), ("title", 40/100),
   ("b", 75/1000), ("strong", 55/1000), ("other", 2/100)]

inductive SearchErr
  | keyError (k : String)
  | zeroDivisionError
  deriving Repr, DecidableEq

/-- Deduplicate keeping first occurrences (a Python `set` built by
iterating a list). -/
def pyListToSet (l : List String) : List String :=
  l.foldl (fun acc t => if acc.contains t then acc else acc ++ [t]) []

/-- `Searcher._process_query`: lowercase, whitespace-split, spell-correct
(`correction(token) or token`), lemmatize, and union the corrected and
lemmatized forms. -/
def processQuery (sc : String → Option String) (lem : String → String)
    (q : String) : List String :=
  let tokens := (pySplitWS (pyLower q.data)).map String.mk
  let corrected := pyListToSet (tokens.map (fun t => (sc t).getD t))
  let lemmatized := pyListToSet (corrected.map lem)
  pyListToSet (lemmatized ++ corrected)

/-- `HTML_TAGS_WEIGHTS[tag]`: a missing tag raises `KeyError`. -/
def tagWeight (tag : String) : Except SearchErr Rat :=
  match alookup htmlTagsWeights tag with
  | some w => .ok w
  | none => .error (.keyError tag)

/-- The inner per-posting score:
`Σ_tag TAG_WEIGHT[tag] * (1 + log(freq)) * idf` with `log(0) ≡ 0`. -/
def postingTfidf (logf : Rat → Rat) (idf : Rat) (p : Posting) :
    Except SearchErr Rat :=
  p.tag_frequencies.foldlM (fun acc q => do
    let w ← tagWeight q.1
    let lg := if q.2 = 0 then 0 else logf (q.2 : Rat)
    pure (acc + w * (1 + lg) * idf)) 0

/-- Scoring of one query token over its `TokenEntry`'s postings,
accumulating into `doc_scores[doc_id][token]`. -/
def scoreToken (logf : Rat → Rat) (disks : List Disk) (pageCount : Nat)
    (scores : List (Int × List (String × Rat))) (token : String) :
    Except SearchErr (List (Int × List (String × Rat))) :=
  (indexGetEntry disks token).postings.foldlM (fun scores p => do
    let df := (indexGetEntry disks token).df
    let idf : Rat := if df = 0 ∨ pageCount = 0 then 0
      else logf ((pageCount : Rat) / (df : Rat))
    let tfidf ← postingTfidf logf idf p
    let cur := (alookup scores p.doc_id).getD []
    pure (aset scores p.doc_id
      (aset cur token ((alookup cur token).getD 0 + tfidf)))) scores

/-- `Searcher._cosine_similarity` with `math.sqrt` passed in; a missing
document vector raises `KeyError`, a zero denominator
`ZeroDivisionError`. -/
def cosineSimilarity (sqrtf : Rat → Rat)
    (docVectors : List (String × List (String × Nat))) (query : String)
    (docIdStr : String) : Except SearchErr Rat := do
  let qv := computeWordFrequencies (tokenize query)
  let dv ← match alookup docVectors docIdStr with
    | some d => pure d
    | none => Except.error (.keyError docIdStr)
  let keys := pyListToSet ((qv.map (·.1)) ++ (dv.map (·.1)))
  let num := (keys.map (fun w =>
    (((alookup qv w).getD 0 : Nat) : Rat) * (((alookup dv w).getD 0 : Nat) : Rat))).sum
  let den := sqrtf (((qv.map (fun p => ((p.2 : Rat)) ^ 2)).sum) *
    ((dv.map (fun p => ((p.2 : Rat)) ^ 2)).sum))
  if den = 0 then Except.error .zeroDivisionError else pure (num / den)

/-- Stable descending insertion (Python `sorted(..., reverse=True)`). -/
def insertScoreDesc {α : Type} (x : α × Rat) : List (α × Rat) → List (α × Rat)
  | [] => [x]
  | y :: ys => if y.2 ≤ x.2 then x :: y :: ys else y :: insertScoreDesc x ys

/-- `sorted(items, key=score, reverse=True)`, stable. -/
def sortByScoreDesc {α : Type} (l : List (α × Rat)) : List (α × Rat) :=
  l.foldr insertScoreDesc []

/-- Set equality of key lists (`entries.keys() == query_tokens`). -/
def listSetEq (a b : List String) : Bool :=
  a.all (fun x => b.contains x) && b.all (fun x => a.contains x)

/-- `Searcher.search`.  `elapsed` stands for the externally measured
`round(end_time - start_time, 3)`. -/
def search (logf sqrtf : Rat → Rat) (sc : String → Option String)
    (lem : String → String) (disks : List Disk) (pageCount : Nat)
    (docVectors : List (String × List (String × Nat))) (mapper : PathMapperState)
    (elapsed : String) (query : String) :
    Except SearchErr (List String × String) := do
  let queryTokens := processQuery sc lem query
  let docScores ← queryTokens.foldlM (scoreToken logf disks pageCount) []
  let filtered := (docScores.filter (fun p => listSetEq (p.2.map (·.1)) queryTokens)).map
    (fun p => (p.1, (p.2.map (·.2)).sum))
  let sortedDocs := sortByScoreDesc filtered
  let cosign ← (sortedDocs.take 50).foldlM (fun acc p => do
    let c ← cosineSimilarity sqrtf docVectors query (toString p.1)
    pure (aset acc p.1 c)) ([] : List (Int × Rat))
  let sorted2 := sortByScoreDesc cosign
  let urls := (sorted2.map (fun p => mapper.get_url_by_id p.1)).filter (fun u => u != "")
  pure (urls, "Found " ++ toString urls.length ++ " results in " ++ elapsed ++ " seconds")

set_option maxRecDepth 100000 in
/-- **C9.**  Searching with the empty query returns the empty result
list and a timing string (`Found 0 results in ... seconds`) without
raising: the processed token set is empty, so no scoring, filtering or
cosine step runs. -/
theorem search_empty_query (logf sqrtf : Rat → Rat) (sc : String → Option String)
    (lem : String → String) (disks : List Disk) (pageCount : Nat)
    (docVectors : List (String × List (String × Nat))) (mapper : PathMapperState)
    (elapsed : String) :
    search logf sqrtf sc lem disks pageCount docVectors mapper elapsed "" =
      .ok ([], "Found 0 results in " ++ elapsed ++ " seconds") := by
  have h0 : toString (([] : List String)).length = "0" := rfl
  have h1 : search logf sqrtf sc lem disks pageCount docVectors mapper elapsed "" =
      .ok ([], "Found " ++ toString (([] : List String)).length ++ " results in " ++
        elapsed ++ " seconds") := rfl
  rw [h1, h0]
  rfl

/-- Witness for C9 at a concrete searcher configuration. -/
theorem search_empty_query_witness :
    search id id (fun _ => none) id [] 0 []
      { path_to_id := [], url_to_id := [] } "0.001" "" =
      .ok ([], "Found 0 results in 0.001 seconds") :=
  search_empty_query id id (fun _ => none) id [] 0 []
    { path_to_id := [], url_to_id := [] } "0.001"

end A3
